import Mathlib

/-!
Verification development for the `fish-conditions` repository, main script
`lib/score_temp.py` ("Provide score for temperature condition").

The script is embedded shallowly:

* Python strings are Lean `String`s; the helpers `pyStrip`, `pySplitOn`,
  `pySplitWs` model `str.strip()`, `str.split(sep)` and `str.split()`.
* A Python `dict` built row by row is an association list with in-place
  update semantics (`dictSet` replaces the existing binding, `dictGet`
  returns the binding or a `KeyError`).
* Python floats are modelled as rationals (`ℚ`); `pyFloatQ` models
  `float(s)` on sign/digits/dot literals, the only forms that occur in
  this program's inputs and in the m-value regular expressions.
* The external `oligo_melting` library (imported with `from
  oligo_melting.lib.meltlib import *`) is not part of this repository;
  it is modelled as a structure `MeltLib` of oracle functions with the
  exact argument lists used at the call sites.
* Fatal termination (`sys.exit`) and uncaught exceptions (`KeyError`,
  `IndexError`, `ValueError`) are modelled as `Except RunErr` results.
* Writes to the optional `--out-single` file are modelled as a list of
  `OutWrite` events (the header line, and one record per probe).
-/

namespace ScoreTemp

/-- Characters treated as whitespace by Python's `str.strip()` and `str.split()`. -/
def isPyWs (c : Char) : Bool :=
  c == ' ' || c == '\t' || c == '\n' || c == '\r' || c == '\x0b' || c == '\x0c'

/-- Model of Python `str.strip()`: drop whitespace from both ends. -/
def pyStrip (s : List Char) : List Char :=
  ((s.dropWhile isPyWs).reverse.dropWhile isPyWs).reverse

/-- Model of Python `str.split(sep)` for a one-character separator:
splits at every occurrence, keeping empty fields; `"".split(sep) = [""]`. -/
def pySplitOn (sep : Char) : List Char → List (List Char)
  | [] => [[]]
  | c :: cs =>
    if c == sep then [] :: pySplitOn sep cs
    else
      match pySplitOn sep cs with
      | [] => [[c]]
      | t :: ts => (c :: t) :: ts

/-- Accumulator-style worker for `pySplitWs`. -/
def wsSplitAux : List Char → List Char → List (List Char)
  | [], cur => if cur.isEmpty then [] else [cur.reverse]
  | c :: cs, cur =>
    if isPyWs c then
      if cur.isEmpty then wsSplitAux cs [] else cur.reverse :: wsSplitAux cs []
    else wsSplitAux cs (c :: cur)

/-- Model of Python `str.split()` (no argument): split on runs of
whitespace, discarding empty fields; `"".split() = []`. -/
def pySplitWs (s : List Char) : List (List Char) :=
  wsSplitAux s []

/-- String-level `strip`. -/
def pyStripS (s : String) : String :=
  String.mk (pyStrip s.data)

/-- String-level tab split, as used for the header line (`row.strip().split("\t")`). -/
def pySplitTabS (s : String) : List String :=
  (pySplitOn '\t' s.data).map String.mk

/-- String-level whitespace split, as used for data lines (`row.strip().split()`). -/
def pySplitWsS (s : String) : List String :=
  (pySplitWs s.data).map String.mk

/-- A parsed table row: Python dict from column name to raw string value. -/
abbrev Row := List (String × String)

/-- Error kinds of the script run: `sys.exit` calls and uncaught exceptions. -/
inductive RunErr where
  /-- `sys.exit` on a malformed formamide m-value expression (lines 131-132). -/
  | usageError
  /-- Uncaught Python `KeyError` carrying the missing key. -/
  | keyError (k : String)
  /-- `sys.exit` in `reparse_tsv_list` when a row lacks the aggregation key. -/
  | missingAggKey (k : String)
  /-- Uncaught Python `IndexError` (indexing `[0]` into an empty list). -/
  | indexError
  /-- Uncaught Python `ValueError` (`float()` on a malformed literal). -/
  | valueError
deriving DecidableEq

/-- Python dict lookup `d[k]`: first binding of `k`, else a `KeyError`. -/
def dictGet : Row → String → Except RunErr String
  | [], k => .error (.keyError k)
  | (k', v) :: d, k => if k' = k then .ok v else dictGet d k

/-- Python dict membership test `k in d.keys()`. -/
def dictHasKey : Row → String → Bool
  | [], _ => false
  | (k', _) :: d, k => k' == k || dictHasKey d k

/-- Python dict assignment `d[k] = v`: replace the binding in place,
or append a new binding when the key is absent. -/
def dictSet : Row → String → String → Row
  | [], k, v => [(k, v)]
  | (k', v') :: d, k, v => if k' = k then (k, v) :: d else (k', v') :: dictSet d k v

/-- Row construction of `read_tsv` (lines 181-184): `rowd[first_row[i]] = row[i]`
for `i in range(len(first_row))`, on a fresh empty dict. -/
def buildRow (names vals : List String) : Row :=
  (names.zip vals).foldl (fun d p => dictSet d p.1 p.2) []

/-- Loop body of `read_tsv` (lines 166-184): the first iterated line is
tab-split into `first_row`; every later line is whitespace-split, its
length checked against the header, and stored; on a length mismatch the
whole call returns `[]` (line 178). -/
def read_tsv_go (first_row : List String) (acc : List Row) : List String → List Row
  | [] => acc
  | l :: ls =>
    if first_row.length = 0 then
      read_tsv_go (pySplitTabS (pyStripS l)) acc ls
    else
      let row := pySplitWsS (pyStripS l)
      if row.length ≠ first_row.length then []
      else read_tsv_go first_row (acc ++ [buildRow first_row row]) ls

/-- `read_tsv(path)` (lines 140-187) on the file's lines. -/
def read_tsv (lines : List String) : List Row :=
  read_tsv_go [] [] lines

/-- `read_tsv` including the existence check (lines 157-158): a missing
file (`none`) yields the empty list. -/
def read_table : Option (List String) → List Row
  | none => []
  | some lines => read_tsv lines

/-- The aggregated table: Python dict from identifier to list of rows. -/
abbrev Dict := List (String × List Row)

/-- `d[k].split(delim)[0]` for the one-character delimiter used by the
script: the prefix before the first occurrence of `delim`. -/
def truncAt (delim : Char) (v : String) : String :=
  String.mk (v.data.takeWhile (fun c => c ≠ delim))

/-- The aggregation identifier derived from a key value (lines 212-214):
the prefix before the delimiter when the value contains it, else the value. -/
def aggId (delim : Char) (v : String) : String :=
  if v.data.any (fun c => c = delim) then truncAt delim v else v

/-- The in-place row mutation of `reparse_tsv_list` (lines 213-214):
`if delim in d[k]: d[k] = d[k].split(delim)[0]`. -/
def updKey (k : String) (delim : Char) (d : Row) : Row :=
  match dictGet d k with
  | .ok v => if v.data.any (fun c => c = delim) then dictSet d k (truncAt delim v) else d
  | .error _ => d

/-- Group insertion of `reparse_tsv_list` (lines 217-220): append to the
existing group or create a new one at the end. -/
def dictAppendGroup : Dict → String → Row → Dict
  | [], key, d => [(key, [d])]
  | (k', g) :: rest, key, d =>
    if k' = key then (k', g ++ [d]) :: rest
    else (k', g) :: dictAppendGroup rest key d

/-- Lookup in the aggregated dict (`outd[name]`), `none` when absent. -/
def lookupGroup : Dict → String → Option (List Row)
  | [], _ => none
  | (k', g) :: rest, name => if k' = name then some g else lookupGroup rest name

/-- Loop of `reparse_tsv_list` (lines 205-220): each row must contain the
aggregation key (else `sys.exit`, lines 207-209); the key value is
truncated in place at the delimiter, and the mutated row is stored under
the truncated identifier. -/
def reparse_go (k : String) (delim : Char) : List Row → Dict → Except RunErr Dict
  | [], outd => .ok outd
  | d :: l, outd =>
    match dictGet d k with
    | .error _ => .error (.missingAggKey k)
    | .ok v => reparse_go k delim l (dictAppendGroup outd (aggId delim v) (updKey k delim d))

/-- `reparse_tsv_list(l, k, delim)` (lines 189-223). -/
def reparse_tsv_list (l : List Row) (k : String) (delim : Char) : Except RunErr Dict :=
  reparse_go k delim l []

/-- Digit or dot: the character class `[0-9\.]` of the m-value regexes. -/
def isDigitDot (c : Char) : Bool :=
  c.isDigit || c == '.'

/-- Sign character: the class `[+-]`. -/
def isSign (c : Char) : Bool :=
  c == '+' || c == '-'

/-- Whole-string membership in the language of `[+-]?[0-9\.]*`
(the second m-value regex and the group before `L` in the first). -/
def matchNum : List Char → Bool
  | [] => true
  | c :: cs => if isSign c then cs.all isDigitDot else (c :: cs).all isDigitDot

/-- Whole-string membership in the language of `[+-][0-9\.]*`
(the group after `L` in the first m-value regex). -/
def matchSignedNum : List Char → Bool
  | [] => false
  | c :: cs => isSign c && cs.all isDigitDot

/-- Split a candidate m-value string at its first `L`, the only possible
decomposition for the regex `(([+-]?[0-9\.]*)L([+-][0-9\.]*))`, since
neither capture group can contain an `L`. -/
def linearSplit (s : List Char) : Option (List Char × List Char) :=
  match s.dropWhile (fun c => c ≠ 'L') with
  | [] => none
  | _ :: y => some (s.takeWhile (fun c => c ≠ 'L'), y)

/-- Whole-string membership in the language of the first m-value regex. -/
def matchLinearForm (s : List Char) : Bool :=
  match linearSplit s with
  | none => false
  | some (x, y) => matchNum x && matchSignedNum y

/-- A parsed m-value expression: the capture groups of the matching regex. -/
inductive MVal where
  /-- Shape `xL+y` / `xL-y`: groups 1 and 2 of the first regex (the sign
  stays attached to `y`). -/
  | linear (x y : String)
  /-- Shape `x`: the single group of the second regex. -/
  | const (x : String)
deriving DecidableEq

/-- The m-value recognition procedure (lines 111-128).  The script runs
`re.search` and accepts only when the full match equals the whole input
(`fa_mval_s == mgroups[0]`); for these two regexes the leftmost-greedy
search finds a whole-string match exactly when one exists, so the check
amounts to whole-string membership.  The first regex is tried first;
the second only when the first did not accept. -/
def parse_mval (s : String) : Option MVal :=
  match linearSplit s.data with
  | some (x, y) =>
    if matchNum x && matchSignedNum y then some (MVal.linear (String.mk x) (String.mk y))
    else if matchNum s.data then some (MVal.const s) else none
  | none => if matchNum s.data then some (MVal.const s) else none

/-- Numeric value of a digit string, as a rational. -/
def digitsVal (ds : List Char) : ℚ :=
  ds.foldl (fun n c => 10 * n + ((c.toNat - 48 : ℕ) : ℚ)) 0

/-- Model of Python `float(s)` on sign/digits/dot literals: an optional
sign, then digits with at most one dot and at least one digit.  Returns
`none` where `float` raises `ValueError` (e.g. `""`, `"."`, `"1.2.3"`).
Exotic accepted forms (exponents, `inf`, underscores) cannot arise from
the m-value regexes and are not modelled. -/
def pyFloatQ (s : String) : Option ℚ :=
  match s.data with
  | [] => none
  | c :: cs =>
    let sgn : ℚ := if c == '-' then -1 else 1
    let t : List Char := if isSign c then cs else c :: cs
    let i := t.takeWhile (fun x => x ≠ '.')
    if ¬ i.all Char.isDigit then none
    else
      match t.dropWhile (fun x => x ≠ '.') with
      | [] => if i.isEmpty then none else some (sgn * digitsVal i)
      | _ :: f =>
        if f.all Char.isDigit && (!i.isEmpty || !f.isEmpty) then
          some (sgn * (digitsVal i + digitsVal f / 10 ^ f.length))
        else none

/-- Evaluation of the lambda built from a parsed m-value (lines 119 and
127): `float` conversions happen at call time and may fail. -/
def MVal.eval : MVal → ℚ → Option ℚ
  | .linear x y, len =>
    match pyFloatQ x with
    | none => none
    | some a =>
      match pyFloatQ y with
      | none => none
      | some b => some (a * len + b)
  | .const x, _ => pyFloatQ x

/-- Total version of `MVal.eval` handed to the melting library as the
`mvalue` callback (a `float` failure would raise inside the library,
outside this repository's code). -/
def MVal.evalD (m : MVal) (len : ℚ) : ℚ :=
  (m.eval len).getD 0

/-- The experimental condition fixed from the command line (lines 84-97);
temperatures in Celsius, concentrations in mol/L, formamide in percent. -/
structure Condition where
  temp : ℚ
  dtype : String
  oligo_conc : ℚ
  na_conc : ℚ
  mg_conc : ℚ
  fa_conc : ℚ
  fa_mode : String

/-- Oracle for the external `oligo_melting` library, with one field per
function used by the script, each with the call site's argument list.
Curve evaluators return the library's ordered list of
(temperature, fraction) samples. -/
structure MeltLib where
  duMelt_ion_adj : ℚ → ℚ → ℚ → ℚ → ℚ → ℚ
  duMelt_fa_adj : ℚ → ℚ → ℚ → String → ℚ → ℚ → String → (ℚ → ℚ) → String → ℚ → ℚ
  duMelt_curve :
    String → ℚ → ℚ → ℚ → ℚ → String → (ℚ → ℚ) → ℚ → ℚ → ℚ → ℚ → ℚ → ℚ → String →
      List (ℚ × ℚ)
  ssMelt_fa_adj : ℚ → ℚ → ℚ → ℚ
  ssMelt_curve : ℚ → ℚ → ℚ → ℚ → ℚ → ℚ → List (ℚ × ℚ)

/-- Python `str.upper()` (`seq.upper()`, line 240), ASCII letters. -/
def pyUpper (s : String) : String :=
  String.mk (s.data.map Char.toUpper)

/-- `float()` wrapped into the run's error monad. -/
def pyFloatE (s : String) : Except RunErr ℚ :=
  match pyFloatQ s with
  | some q => .ok q
  | none => .error .valueError

/-- Target side of the probe loop (lines 238-252): extract `dH`, `dS`,
`Seq` from the first target row, compute the GC fraction, chain the two
temperature corrections, evaluate the duplex curve and keep the fraction
component of sample 0.  (`273.15` is `5463/20`; the scan step `0.1` is
`1/10`.) -/
def targetFraction (lib : MeltLib) (cond : Condition) (mvalue : ℚ → ℚ) (trow : Row) :
    Except RunErr ℚ :=
  match dictGet trow "dH" with
  | .error e => .error e
  | .ok tdhs =>
    match pyFloatE tdhs with
    | .error e => .error e
    | .ok tdh =>
      match dictGet trow "dS" with
      | .error e => .error e
      | .ok tdss =>
        match pyFloatE tdss with
        | .error e => .error e
        | .ok tds =>
          match dictGet trow "Seq" with
          | .error e => .error e
          | .ok seq0 =>
            let seq := pyUpper seq0
            let fgc : ℚ := ((seq.data.count 'G' + seq.data.count 'C' : ℕ) : ℚ) /
              ((seq.data.length : ℕ) : ℚ)
            let ttemp0 : ℚ := cond.temp + 5463 / 20
            let ttemp1 := lib.duMelt_ion_adj ttemp0 1 0 fgc cond.na_conc
            let ttemp2 := lib.duMelt_fa_adj ttemp1 tdh tds seq cond.oligo_conc 0
              cond.fa_mode mvalue cond.dtype cond.fa_conc
            match (lib.duMelt_curve seq cond.oligo_conc cond.na_conc cond.mg_conc
                cond.fa_conc cond.fa_mode mvalue fgc tdh tds ttemp2 0 (1/10)
                cond.dtype).get? 0 with
            | some p => .ok p.2
            | none => .error .indexError

/-- Secondary-structure side of the probe loop (lines 255-263): extract
`dH` and `dS` from the first secondary row, divide the entropy by 1000,
adjust the temperature, evaluate the single-strand curve and keep the
fraction component of sample 0. -/
def ssFraction (lib : MeltLib) (cond : Condition) (srow : Row) : Except RunErr ℚ :=
  match dictGet srow "dH" with
  | .error e => .error e
  | .ok sdhs =>
    match pyFloatE sdhs with
    | .error e => .error e
    | .ok sdh =>
      match dictGet srow "dS" with
      | .error e => .error e
      | .ok sdss =>
        match pyFloatE sdss with
        | .error e => .error e
        | .ok sds0 =>
          let sds := sds0 / 1000
          let stemp := lib.ssMelt_fa_adj (cond.temp + 5463 / 20) 0 cond.fa_conc
          match (lib.ssMelt_curve sdh sds stemp cond.fa_conc 0 (1/10)).get? 0 with
          | some p => .ok p.2
          | none => .error .indexError

set_option linter.unusedVariables false in
/-- Score combination (lines 267-277): the returned score is `good`;
`bad` is computed on line 274 but does not feed into the result. -/
def combineScore (sf tf : ℚ) : ℚ :=
  let unfold := sf
  let folded := 1 - unfold
  let dissoc := tf
  let hybrid := 1 - dissoc
  let good := unfold * hybrid
  let bad := (folded + dissoc) - folded * dissoc
  good

/-- One iteration of the probe loop (lines 235-277) up to the score: the
target side runs first, then `s[oligo_name]` is looked up (a `KeyError`
when the probe is absent from the secondary aggregation), then the
secondary side, then the combination. -/
def probeScore (lib : MeltLib) (cond : Condition) (mvalue : ℚ → ℚ) (s : Dict)
    (name : String) (g : List Row) : Except RunErr ℚ :=
  match g.get? 0 with
  | none => .error .indexError
  | some trow =>
    match targetFraction lib cond mvalue trow with
    | .error e => .error e
    | .ok tf =>
      match lookupGroup s name with
      | none => .error (.keyError name)
      | some sg =>
        match sg.get? 0 with
        | none => .error .indexError
        | some srow =>
          match ssFraction lib cond srow with
          | .error e => .error e
          | .ok sf => .ok (combineScore sf tf)

/-- The running-minimum update (lines 284-285):
`if score <= min_score: min_score = score`. -/
def minStep (m score : ℚ) : ℚ :=
  if score ≤ m then score else m

/-- The min-reduction over a list of probe scores, seeded at 1 (line 232). -/
def minReduce (scores : List ℚ) : ℚ :=
  scores.foldl minStep 1

/-- An observable write to the `--out-single` output file. -/
inductive OutWrite where
  /-- The header line `name\tscore` (line 106). -/
  | header
  /-- A per-probe record `name\tscore` (line 281); the numeric score is
  recorded, abstracting the `%f` textual formatting. -/
  | line (name : String) (score : ℚ)
deriving DecidableEq

/-- The probe loop (lines 235-285): iterate the target aggregation in
order, carrying the written output and the running minimum; an uncaught
exception stops the run, keeping the writes made so far. -/
def loopGo (lib : MeltLib) (cond : Condition) (mvalue : ℚ → ℚ) (doSingleOut : Bool)
    (s : Dict) : List OutWrite → ℚ → List (String × List Row) →
      List OutWrite × Except RunErr ℚ
  | ws, m, [] => (ws, .ok m)
  | ws, m, (name, g) :: rest =>
    match probeScore lib cond mvalue s name g with
    | .error e => (ws, .error e)
    | .ok score =>
      let ws' := if doSingleOut then ws ++ [OutWrite.line name score] else ws
      loopGo lib cond mvalue doSingleOut s ws' (minStep m score) rest

/-- The per-probe scores the loop would compute, in iteration order
(a derived view of `loopGo` used to state the min-reduction property). -/
def loopScores (lib : MeltLib) (cond : Condition) (mvalue : ℚ → ℚ) (s : Dict) :
    List (String × List Row) → Except RunErr (List ℚ)
  | [] => .ok []
  | (name, g) :: rest =>
    match probeScore lib cond mvalue s name g with
    | .error e => .error e
    | .ok sc =>
      match loopScores lib cond mvalue s rest with
      | .error e => .error e
      | .ok scs => .ok (sc :: scs)

/-- Command-line inputs of one run; the table files are `none` when the
path does not exist (`os.path.exists`, line 157). -/
structure Args where
  target_tsv : Option (List String)
  second_tsv : Option (List String)
  cond : Condition
  fa_mval_s : String
  doSingleOut : Bool

/-- The whole script run (lines 104-292), in source order: write the
header when `--out-single` is given (lines 104-106), parse the m-value
expression (lines 111-132, `sys.exit` on failure), aggregate the target
then the secondary table (lines 228-229), run the probe loop seeded at
`min_score = 1` (lines 232-285).  The second component is the printed
minimum (line 292) or the fatal error. -/
def runScript (lib : MeltLib) (a : Args) : List OutWrite × Except RunErr ℚ :=
  let ws : List OutWrite := if a.doSingleOut then [OutWrite.header] else []
  match parse_mval a.fa_mval_s with
  | none => (ws, .error .usageError)
  | some mv =>
    match reparse_tsv_list (read_table a.target_tsv) "oligo_name" ',' with
    | .error e => (ws, .error e)
    | .ok t =>
      match reparse_tsv_list (read_table a.second_tsv) "oligo_name" ',' with
      | .error e => (ws, .error e)
      | .ok s => loopGo lib a.cond mv.evalD a.doSingleOut s ws 1 t

/-! Helper lemmas. -/

lemma pySplitOn_ne_nil (sep : Char) (l : List Char) : pySplitOn sep l ≠ [] := by
  induction l with
  | nil => simp [pySplitOn]
  | cons c cs ih =>
    unfold pySplitOn
    by_cases h : c == sep
    · simp [h]
    · simp only [h, Bool.false_eq_true, if_false]
      cases hcs : pySplitOn sep cs <;> simp

lemma pySplitTabS_length_pos (s : String) : 0 < (pySplitTabS s).length := by
  unfold pySplitTabS
  rw [List.length_map]
  cases h : pySplitOn '\t' s.data with
  | nil => exact absurd h (pySplitOn_ne_nil _ _)
  | cons a l => simp

lemma read_tsv_go_all_ok (fr : List String) (hfr : fr.length ≠ 0) (ls : List String)
    (h : ∀ r ∈ ls, (pySplitWsS (pyStripS r)).length = fr.length) (acc : List Row) :
    read_tsv_go fr acc ls = acc ++ ls.map (fun r => buildRow fr (pySplitWsS (pyStripS r))) := by
  induction ls generalizing acc with
  | nil => simp [read_tsv_go]
  | cons l ls ih =>
    have hl : (pySplitWsS (pyStripS l)).length = fr.length := h l (by simp)
    have hrest : ∀ r ∈ ls, (pySplitWsS (pyStripS r)).length = fr.length :=
      fun r hr => h r (by simp [hr])
    simp only [read_tsv_go, if_neg hfr, hl, ne_eq, not_true_eq_false, if_false,
      ite_false]
    rw [ih hrest]
    simp

lemma read_tsv_go_bad (fr : List String) (hfr : fr.length ≠ 0) (ls : List String)
    (r : String) (hr : r ∈ ls) (hbad : (pySplitWsS (pyStripS r)).length ≠ fr.length)
    (acc : List Row) : read_tsv_go fr acc ls = [] := by
  induction ls generalizing acc with
  | nil => cases hr
  | cons l ls ih =>
    by_cases hl : (pySplitWsS (pyStripS l)).length = fr.length
    · have hr' : r ∈ ls := by
        rcases List.mem_cons.mp hr with h' | h'
        · exact absurd (h' ▸ hl) hbad
        · exact h'
      simp only [read_tsv_go, if_neg hfr, hl, ne_eq, not_true_eq_false, ite_false]
      exact ih hr' _
    · simp only [read_tsv_go, if_neg hfr, ne_eq, hl, not_false_eq_true, if_true, ite_true]

lemma minStep_le_left (m x : ℚ) : minStep m x ≤ m := by
  unfold minStep
  split
  · assumption
  · exact le_refl m

lemma foldl_minStep_le_init (l : List ℚ) (m : ℚ) : l.foldl minStep m ≤ m := by
  induction l generalizing m with
  | nil => exact le_refl m
  | cons x l ih => exact le_trans (ih (minStep m x)) (minStep_le_left m x)

lemma foldl_minStep_le_mem (l : List ℚ) (m x : ℚ) (hx : x ∈ l) : l.foldl minStep m ≤ x := by
  induction l generalizing m with
  | nil => cases hx
  | cons y l ih =>
    rcases List.mem_cons.mp hx with h' | h'
    · subst h'
      refine le_trans (foldl_minStep_le_init l (minStep m x)) ?_
      unfold minStep
      split
      · exact le_refl x
      · linarith [not_le.mp (by assumption)]
    · exact ih (minStep m y) h'

lemma foldl_minStep_mem_or (l : List ℚ) (m : ℚ) :
    l.foldl minStep m = m ∨ l.foldl minStep m ∈ l := by
  induction l generalizing m with
  | nil => exact Or.inl rfl
  | cons x l ih =>
    rcases ih (minStep m x) with h | h
    · rw [List.foldl_cons, h]
      unfold minStep
      split
      · exact Or.inr (by simp)
      · exact Or.inl rfl
    · exact Or.inr (List.mem_cons_of_mem x h)

lemma loopGo_result (lib : MeltLib) (cond : Condition) (mvalue : ℚ → ℚ)
    (dso : Bool) (s : Dict) (entries : List (String × List Row)) (scs : List ℚ)
    (h : loopScores lib cond mvalue s entries = .ok scs) (ws : List OutWrite) (m : ℚ) :
    (loopGo lib cond mvalue dso s ws m entries).2 = .ok (scs.foldl minStep m) := by
  induction entries generalizing scs ws m with
  | nil =>
    unfold loopScores at h
    injection h with h
    subst h
    rfl
  | cons e rest ih =>
    obtain ⟨name, g⟩ := e
    unfold loopScores at h
    cases hps : probeScore lib cond mvalue s name g with
    | error e => rw [hps] at h; cases h
    | ok sc =>
      rw [hps] at h
      cases hrest : loopScores lib cond mvalue s rest with
      | error e => rw [hrest] at h; cases h
      | ok scs' =>
        rw [hrest] at h
        injection h with h
        subst h
        simp only [loopGo, hps]
        exact ih scs' hrest _ _

/-- The decision `reparse_tsv_list` makes for one row with respect to
identifier `g`: keep its mutated version when its key value truncates
to `g`. -/
def rowKeep (k : String) (delim : Char) (g : String) (d : Row) : Option Row :=
  match dictGet d k with
  | .ok v => if aggId delim v = g then some (updKey k delim d) else none
  | .error _ => none

/-- The rows that `reparse_tsv_list` stores under identifier `g`, derived
directly from the input list: the mutated versions of the rows whose key
value truncates to `g`. -/
def rowFilter (k : String) (delim : Char) (g : String) (l : List Row) : List Row :=
  l.filterMap (rowKeep k delim g)

lemma rowKeep_of_get (k : String) (delim : Char) (g : String) (d : Row) (v : String)
    (hd : dictGet d k = .ok v) :
    rowKeep k delim g d = if aggId delim v = g then some (updKey k delim d) else none := by
  unfold rowKeep
  rw [hd]

lemma lookupGroup_dictAppendGroup (outd : Dict) (key : String) (d : Row) (g : String) :
    lookupGroup (dictAppendGroup outd key d) g =
      if g = key then some ((lookupGroup outd g).getD [] ++ [d])
      else lookupGroup outd g := by
  induction outd with
  | nil =>
    by_cases hg : g = key
    · simp [dictAppendGroup, lookupGroup, hg]
    · simp [dictAppendGroup, lookupGroup, hg, Ne.symm hg]
  | cons e rest ih =>
    obtain ⟨k', gl⟩ := e
    by_cases hk : k' = key
    · subst hk
      by_cases hg : g = k'
      · subst hg
        simp [dictAppendGroup, lookupGroup]
      · simp [dictAppendGroup, lookupGroup, hg, Ne.symm hg]
    · by_cases hg : k' = g
      · subst hg
        simp [dictAppendGroup, lookupGroup, hk, Ne.symm hk]
      · simp [dictAppendGroup, lookupGroup, hk, hg, ih]

lemma reparse_go_lookup (k : String) (delim : Char) (l : List Row) (outd out : Dict)
    (h : reparse_go k delim l outd = .ok out) (g : String) :
    (lookupGroup out g).getD [] = (lookupGroup outd g).getD [] ++ rowFilter k delim g l := by
  induction l generalizing outd with
  | nil =>
    unfold reparse_go at h
    injection h with h
    subst h
    simp [rowFilter]
  | cons d l ih =>
    unfold reparse_go at h
    cases hd : dictGet d k with
    | error e => simp [hd] at h
    | ok v =>
      simp only [hd] at h
      rw [ih _ h, lookupGroup_dictAppendGroup]
      unfold rowFilter
      rw [List.filterMap_cons, rowKeep_of_get k delim g d v hd]
      by_cases hg : g = aggId delim v
      · rw [if_pos hg, if_pos (hg.symm), Option.getD_some]
        simp [rowFilter]
      · rw [if_neg hg, if_neg (Ne.symm hg)]

lemma rowFilter_mem (k : String) (delim : Char) (g : String) (l : List Row) (d' : Row)
    (h : d' ∈ rowFilter k delim g l) : ∃ d ∈ l, d' = updKey k delim d := by
  obtain ⟨d, hd, he⟩ := List.mem_filterMap.mp h
  refine ⟨d, hd, ?_⟩
  cases hv : dictGet d k with
  | error e =>
    rw [rowKeep, hv] at he
    cases he
  | ok v =>
    rw [rowKeep_of_get k delim g d v hv] at he
    by_cases hg : aggId delim v = g
    · rw [if_pos hg] at he
      injection he with he
      exact he.symm
    · rw [if_neg hg] at he
      cases he

lemma dictGet_dictSet_self (d : Row) (k v : String) : dictGet (dictSet d k v) k = .ok v := by
  induction d with
  | nil => simp [dictSet, dictGet]
  | cons e rest ih =>
    obtain ⟨k', v'⟩ := e
    by_cases hk : k' = k
    · simp [dictSet, dictGet, hk]
    · simp [dictSet, dictGet, hk, ih]

lemma dictGet_dictSet_other (d : Row) (k v k' : String) (h : k' ≠ k) :
    dictGet (dictSet d k v) k' = dictGet d k' := by
  induction d with
  | nil => simp [dictSet, dictGet, Ne.symm h]
  | cons e rest ih =>
    obtain ⟨k'', v''⟩ := e
    by_cases hk : k'' = k
    · subst hk
      simp [dictSet, dictGet, Ne.symm h]
    · simp [dictSet, dictGet, hk, ih]

/-! Concrete fixtures used by witnesses and counterexamples. -/

/-- An instance of the external melting library whose curve evaluators
return a single sample with fraction `1/2` and whose temperature
adjustments are the identity on the temperature argument. -/
def constLib : MeltLib :=
  ⟨fun t _ _ _ _ => t,
   fun t _ _ _ _ _ _ _ _ _ => t,
   fun _ _ _ _ _ _ _ _ _ _ _ _ _ _ => [(0, 1/2)],
   fun t _ _ => t,
   fun _ _ _ _ _ _ => [(0, 1/2)]⟩

/-- The default command-line condition (lines 41-75). -/
def condW : Condition :=
  ⟨37, "DNA:DNA", 1/4000000, 1/20, 0, 35, "mcconaughy"⟩

/-- A well-formed target-table row. -/
def tRowW : Row :=
  [("oligo_name", "p1"), ("dH", "-80"), ("dS", "-200"), ("Seq", "GCGC")]

/-- A well-formed secondary-structure row. -/
def sRowW : Row :=
  [("oligo_name", "p1"), ("dH", "-20"), ("dS", "-50")]

/-- The target aggregation built from `tRowW`. -/
def tW : Dict := [("p1", [tRowW])]

/-- The secondary aggregation built from `sRowW`. -/
def sW : Dict := [("p1", [sRowW])]

/-- A full set of well-formed run inputs, per-probe output requested. -/
def argsW : Args :=
  ⟨some ["oligo_name\tdH\tdS\tSeq", "p1 -80 -200 GCGC"],
   some ["oligo_name\tdH\tdS", "p1 -20 -50"],
   condW, "0.1734", true⟩

/-- Run inputs with a malformed m-value expression. -/
def argsXYZ : Args :=
  ⟨none, none, condW, "xyz", true⟩

/-- Two rows whose key values truncate to the same identifier. -/
def lW7 : List Row :=
  [[("oligo_name", "probe1,v2"), ("v", "1")], [("oligo_name", "probe1"), ("v", "2")]]

/-- The aggregation of `lW7`, both rows grouped under `"probe1"`. -/
def outW7 : Dict :=
  [("probe1", [[("oligo_name", "probe1"), ("v", "1")], [("oligo_name", "probe1"), ("v", "2")]])]

/-- A row whose key value contains the truncation delimiter. -/
def rowMut : Row := [("oligo_name", "probe1,v2"), ("dH", "1")]

/-- Reader variant following the claim's words ("the first non-empty line
of the file defines the field names"): leading lines that strip to the
empty string would be skipped before the header is taken.  Defined only
to exhibit the divergence from the code's `read_tsv`. -/
def read_tsv_headerFirstNonEmpty (lines : List String) : List Row :=
  match lines.dropWhile (fun l => (pyStripS l).isEmpty) with
  | [] => []
  | h :: rest => read_tsv_go (pySplitTabS (pyStripS h)) [] rest

lemma char_digit_vals :
    ('0'.toNat - 48 : ℕ) = 0 ∧ ('1'.toNat - 48 : ℕ) = 1 ∧ ('2'.toNat - 48 : ℕ) = 2 ∧
    ('5'.toNat - 48 : ℕ) = 5 := by
  refine ⟨rfl, rfl, rfl, rfl⟩

lemma pyFloatQ_point2 : pyFloatQ "0.2" = some (1/5) := by
  have h : pyFloatQ "0.2" =
      some (1 * (digitsVal ['0'] + digitsVal ['2'] / 10 ^ (['2']).length)) := rfl
  rw [h]
  norm_num [digitsVal, List.foldl, char_digit_vals.1, char_digit_vals.2.2.1]

lemma pyFloatQ_point01 : pyFloatQ "0.01" = some (1/100) := by
  have h : pyFloatQ "0.01" =
      some (1 * (digitsVal ['0'] + digitsVal ['0', '1'] / 10 ^ (['0', '1']).length)) := rfl
  rw [h]
  norm_num [digitsVal, List.foldl, char_digit_vals.1, char_digit_vals.2.1]

lemma pyFloatQ_point05 : pyFloatQ "+0.05" = some (1/20) := by
  have h : pyFloatQ "+0.05" =
      some (1 * (digitsVal ['0'] + digitsVal ['0', '5'] / 10 ^ (['0', '5']).length)) := rfl
  rw [h]
  norm_num [digitsVal, List.foldl, char_digit_vals.1, char_digit_vals.2.2.2]

/-! Claim theorems. -/

/-- C2: the score the Score Combiner reports for a probe is
`unfolded_fraction * (1 - dissociated_fraction)`; the union probability
`folded + dissoc - folded*dissoc` is computed inside `combineScore` but
does not reach the returned value (and hence never reaches the written
per-probe line or the min reduction, which consume only this result). -/
theorem score_combiner_formula : ∀ sf tf : ℚ, combineScore sf tf = sf * (1 - tf) := by
  intro sf tf
  rfl

/-- C3: m-value parsing accepts exactly the two whole-string regex shapes:
`"0.2"` yields the constant function with value `1/5`, `"0.01L+0.05"`
yields the linear function `len ↦ len/100 + 1/20`, `"xyz"` is rejected
(fatal usage error), and rejection happens exactly when neither shape
matches the entire input string. -/
theorem mval_expression_shapes :
    (parse_mval "0.2" = some (MVal.const "0.2") ∧
      ∀ len : ℚ, MVal.eval (MVal.const "0.2") len = some (1/5)) ∧
    (parse_mval "0.01L+0.05" = some (MVal.linear "0.01" "+0.05") ∧
      ∀ len : ℚ, MVal.eval (MVal.linear "0.01" "+0.05") len = some (1/100 * len + 1/20)) ∧
    parse_mval "xyz" = none ∧
    (∀ s : String, parse_mval s = none ↔
      (matchLinearForm s.data = false ∧ matchNum s.data = false)) := by
  refine ⟨⟨by decide, ?_⟩, ⟨by decide, ?_⟩, by decide, ?_⟩
  · intro len
    exact pyFloatQ_point2
  · intro len
    simp [MVal.eval, pyFloatQ_point01, pyFloatQ_point05]
  · intro s
    unfold parse_mval matchLinearForm
    cases hs : linearSplit s.data with
    | none => cases hm : matchNum s.data <;> simp [hm]
    | some p =>
      obtain ⟨x, y⟩ := p
      cases hl : matchNum x && matchSignedNum y <;>
        cases hm : matchNum s.data <;> simp [hl, hm]

/-- C5 counterexample: on the file `["", "x"]` the code takes the EMPTY
first line as the header (producing the single field name `""`), while
the claim's first-non-empty-line reading would take `"x"` as the header
and return no rows. -/
theorem header_empty_line_ce :
    read_tsv ["", "x"] = [[("", "x")]] ∧
    read_tsv_headerFirstNonEmpty ["", "x"] = [] := by
  constructor <;> decide

/-- C5 amended: the FIRST line of the file — even an empty one — defines
the field names, after stripping and splitting on the tab delimiter
(an empty first line yields the single empty field name), and every
later line is split on arbitrary whitespace. -/
theorem header_first_line_amended (hdr : String) (rows : List String)
    (h : ∀ r ∈ rows,
      (pySplitWsS (pyStripS r)).length = (pySplitTabS (pyStripS hdr)).length) :
    read_tsv (hdr :: rows) =
      rows.map (fun r => buildRow (pySplitTabS (pyStripS hdr)) (pySplitWsS (pyStripS r))) := by
  have hfr := (pySplitTabS_length_pos (pyStripS hdr)).ne'
  have hstep : read_tsv (hdr :: rows) = read_tsv_go (pySplitTabS (pyStripS hdr)) [] rows := by
    simp [read_tsv, read_tsv_go]
  rw [hstep, read_tsv_go_all_ok _ hfr rows h []]
  simp

/-- C5 amended, witnessed at a file whose first line is empty: the empty
line becomes the header. -/
theorem header_first_line_amended_witness :
    read_tsv ["", "x"] = [buildRow [""] ["x"]] := by
  rw [header_first_line_amended "" ["x"] (by decide)]
  decide

/-- C6: a single data line whose whitespace token count differs from the
header's tab field count makes `read_tsv` (and hence `read_table` on an
existing file) return the empty list for the whole file, discarding all
rows. -/
theorem malformed_table_discarded (hdr : String) (rows : List String) (r : String)
    (hmem : r ∈ rows)
    (hbad : (pySplitWsS (pyStripS r)).length ≠ (pySplitTabS (pyStripS hdr)).length) :
    read_tsv (hdr :: rows) = [] ∧ read_table (some (hdr :: rows)) = [] := by
  have hfr := (pySplitTabS_length_pos (pyStripS hdr)).ne'
  have h1 : read_tsv (hdr :: rows) = [] := by
    have hstep : read_tsv (hdr :: rows) = read_tsv_go (pySplitTabS (pyStripS hdr)) [] rows := by
      simp [read_tsv, read_tsv_go]
    rw [hstep]
    exact read_tsv_go_bad _ hfr rows r hmem hbad []
  exact ⟨h1, h1⟩

/-- C6 witness: the spec's example, header `a\tb` with a three-token
data row, yields the empty result. -/
theorem malformed_table_discarded_witness :
    read_tsv ["a\tb", "x y z"] = [] :=
  (malformed_table_discarded "a\tb" ["x y z"] "x y z" (by decide) (by decide)).1

lemma pyFloatQ_m20 : pyFloatQ "-20" = some (-20) := by
  have h : pyFloatQ "-20" = some (-1 * digitsVal ['2', '0']) := rfl
  rw [h]
  norm_num [digitsVal, List.foldl, char_digit_vals.1, char_digit_vals.2.2.1]

lemma pyFloatQ_m50 : pyFloatQ "-50" = some (-50) := by
  have h : pyFloatQ "-50" = some (-1 * digitsVal ['5', '0']) := rfl
  rw [h]
  norm_num [digitsVal, List.foldl, char_digit_vals.1, char_digit_vals.2.2.2]

/-- C1: the printed run result is the min-reduction of the per-probe
scores over the target-table identifiers: seeded at 1, it equals the
minimum of the scores when at least one probe is scored (under the
melting library's contract that fractions, hence scores, do not exceed
1) and stays 1 when none is; the accumulator is monotonically
non-increasing along the loop and a score replaces it whenever the
score is less than or equal to it. -/
theorem run_min_reduction (lib : MeltLib) (a : Args) (mv : MVal) (t s : Dict) (scs : List ℚ)
    (hp : parse_mval a.fa_mval_s = some mv)
    (ht : reparse_tsv_list (read_table a.target_tsv) "oligo_name" ',' = .ok t)
    (hs : reparse_tsv_list (read_table a.second_tsv) "oligo_name" ',' = .ok s)
    (hsc : loopScores lib a.cond mv.evalD s t = .ok scs)
    (hle : ∀ x ∈ scs, x ≤ 1) :
    (runScript lib a).2 = .ok (minReduce scs) ∧
    (scs = [] → minReduce scs = 1) ∧
    (scs ≠ [] → minReduce scs ∈ scs ∧ ∀ x ∈ scs, minReduce scs ≤ x) ∧
    (∀ m sc : ℚ, sc ≤ m → minStep m sc = sc) ∧
    (∀ (m : ℚ) (pre post : List ℚ),
      List.foldl minStep m (pre ++ post) ≤ List.foldl minStep m pre) := by
  refine ⟨?_, ?_, ?_, ?_, ?_⟩
  · simp only [runScript, hp, ht, hs]
    exact loopGo_result lib a.cond mv.evalD a.doSingleOut s t scs hsc _ 1
  · intro h
    subst h
    rfl
  · intro hne
    constructor
    · rcases foldl_minStep_mem_or scs 1 with h | h
      · obtain ⟨x, hx⟩ := List.exists_mem_of_ne_nil scs hne
        have h1 : (1 : ℚ) ≤ x := h ▸ foldl_minStep_le_mem scs 1 x hx
        have h2 : x = 1 := le_antisymm (hle x hx) h1
        unfold minReduce
        rw [h]
        exact h2 ▸ hx
      · exact h
    · exact fun x hx => foldl_minStep_le_mem scs 1 x hx
  · intro m sc h
    unfold minStep
    exact if_pos h
  · intro m pre post
    rw [List.foldl_append]
    exact foldl_minStep_le_init post _

/-- C1 witness: a full run on a one-probe pair of tables. -/
theorem run_min_reduction_witness :
    (runScript constLib argsW).2 = .ok (minReduce [combineScore (1/2) (1/2)]) :=
  (run_min_reduction constLib argsW (MVal.const "0.1734") tW sW [combineScore (1/2) (1/2)]
    rfl rfl rfl rfl
    (by
      intro x hx
      simp only [List.mem_singleton] at hx
      subst hx
      norm_num [combineScore])).1

/-- C4 counterexample: with `--out-single` given and the malformed
m-value `"xyz"`, the run terminates fatally but the header line has
ALREADY been written, so output-file content exists at termination,
contrary to the claim's "no partial output (not even the header)". -/
theorem mval_partial_output_ce :
    runScript constLib argsXYZ = ([OutWrite.header], .error .usageError) ∧
    ([OutWrite.header] : List OutWrite) ≠ [] :=
  ⟨rfl, by simp⟩

/-- C4 amended: on a malformed m-value expression the run terminates
fatally with a usage error before reading any table and before any
per-probe line, but when `--out-single` is given the header line has
already been written — it is the only partial output. -/
theorem mval_malformed_amended (lib : MeltLib) (a : Args)
    (h : parse_mval a.fa_mval_s = none) :
    runScript lib a =
      ((if a.doSingleOut then [OutWrite.header] else []), .error .usageError) := by
  simp only [runScript, h]

/-- C4 amended witness, at the concrete malformed expression `"xyz"`. -/
theorem mval_malformed_amended_witness :
    runScript constLib argsXYZ = ([OutWrite.header], .error .usageError) :=
  mval_malformed_amended constLib argsXYZ rfl

/-- C7: for every identifier `g`, the aggregation group of `g` consists
exactly of the (key-updated) rows whose key value yields `g` after
truncation at the first delimiter occurrence — so rows sharing the
truncated identifier are grouped together; truncation applies exactly
when the value contains the delimiter, and `"probe1,v2"` with delimiter
`','` yields identifier `"probe1"`. -/
theorem aggregation_truncation (l : List Row) (k : String) (delim : Char) (out : Dict)
    (h : reparse_tsv_list l k delim = .ok out) :
    (∀ g : String, (lookupGroup out g).getD [] = rowFilter k delim g l) ∧
    (∀ (c : Char) (v : String), v.data.any (fun x => x = c) → aggId c v = truncAt c v) ∧
    aggId ',' "probe1,v2" = "probe1" := by
  refine ⟨?_, ?_, by decide⟩
  · intro g
    have hc := reparse_go_lookup k delim l [] out h g
    simpa [lookupGroup] using hc
  · intro c v hv
    unfold aggId
    rw [if_pos hv]

/-- C7 witness: rows keyed `"probe1,v2"` and `"probe1"` end up in the
same group `"probe1"`. -/
theorem aggregation_truncation_witness :
    (lookupGroup outW7 "probe1").getD [] = rowFilter "oligo_name" ',' "probe1" lW7 :=
  (aggregation_truncation lW7 "oligo_name" ',' outW7 rfl).1 "probe1"

/-- C8: the single-strand curve evaluator is called with the secondary
table's entropy divided by 1000 while the enthalpy is passed unscaled,
and the unfolded fraction consumed downstream is the fraction component
(second component) of sample 0 of the returned sequence. -/
theorem ss_curve_call (lib : MeltLib) (cond : Condition) (srow : Row)
    (dhs dss : String) (dh ds0 : ℚ)
    (h1 : dictGet srow "dH" = .ok dhs) (h2 : pyFloatQ dhs = some dh)
    (h3 : dictGet srow "dS" = .ok dss) (h4 : pyFloatQ dss = some ds0) :
    ssFraction lib cond srow =
      (match (lib.ssMelt_curve dh (ds0 / 1000)
          (lib.ssMelt_fa_adj (cond.temp + 5463 / 20) 0 cond.fa_conc)
          cond.fa_conc 0 (1/10)).get? 0 with
        | some p => .ok p.2
        | none => .error .indexError) := by
  simp only [ssFraction, pyFloatE, h1, h2, h3, h4]

/-- C8 witness: the call on a concrete secondary row with `dS = -50`. -/
theorem ss_curve_call_witness :
    ssFraction constLib condW sRowW = .ok (1/2) := by
  rw [ss_curve_call constLib condW sRowW "-20" "-50" (-20) (-50) rfl pyFloatQ_m20 rfl
    pyFloatQ_m50]
  rfl

/-- C10: a probe present in the target aggregation but absent from the
secondary aggregation makes the loop stop at that probe with an uncaught
`KeyError` carrying the probe identifier — no skipping, no reported
minimum — while the output lines already written for earlier probes
(`ws`) are retained. -/
theorem missing_secondary_key_error (lib : MeltLib) (cond : Condition) (mvalue : ℚ → ℚ)
    (dso : Bool) (s : Dict) (ws : List OutWrite) (m : ℚ) (name : String) (g : List Row)
    (rest : List (String × List Row)) (trow : Row) (tf : ℚ)
    (h0 : g.get? 0 = some trow)
    (h1 : targetFraction lib cond mvalue trow = .ok tf)
    (h2 : lookupGroup s name = none) :
    loopGo lib cond mvalue dso s ws m ((name, g) :: rest) =
      (ws, .error (.keyError name)) := by
  have hps : probeScore lib cond mvalue s name g = .error (.keyError name) := by
    simp only [probeScore, h0, h1, h2]
  simp only [loopGo, hps]

/-- C10 witness: an empty secondary aggregation (e.g. from a missing
secondary file), with the header and an earlier probe's line already
written. -/
theorem missing_secondary_key_error_witness :
    loopGo constLib condW (MVal.evalD (MVal.const "0.1734")) true []
      [OutWrite.header, OutWrite.line "p0" (1/4)] 1 [("p1", [tRowW])] =
      ([OutWrite.header, OutWrite.line "p0" (1/4)], .error (.keyError "p1")) :=
  missing_secondary_key_error constLib condW (MVal.evalD (MVal.const "0.1734")) true []
    [OutWrite.header, OutWrite.line "p0" (1/4)] 1 "p1" [tRowW] [] tRowW (1/2)
    rfl rfl rfl

/-- C9 counterexample: the Aggregator does NOT leave rows unchanged: the
row keyed `"probe1,v2"` is stored with its key field overwritten to
`"probe1"`, a row different from the parsed one. -/
theorem row_mutation_ce :
    reparse_tsv_list [rowMut] "oligo_name" ',' =
      .ok [("probe1", [[("oligo_name", "probe1"), ("dH", "1")]])] ∧
    ([("oligo_name", "probe1"), ("dH", "1")] : Row) ≠ rowMut :=
  ⟨rfl, by decide⟩

/-- C9 amended: the Aggregator mutates exactly the key field of a row —
its value becomes the truncated aggregation identifier while every other
field binding is unchanged — and every row stored in the aggregation is
the key-updated version of an input row. -/
theorem aggregator_mutates_key_only (k : String) (delim : Char) (d : Row) (v : String)
    (h : dictGet d k = .ok v) :
    dictGet (updKey k delim d) k = .ok (aggId delim v) ∧
    (∀ k' : String, k' ≠ k → dictGet (updKey k delim d) k' = dictGet d k') ∧
    (∀ (l : List Row) (out : Dict), reparse_tsv_list l k delim = .ok out →
      ∀ (g : String) (d' : Row), d' ∈ (lookupGroup out g).getD [] →
        ∃ d₀ ∈ l, d' = updKey k delim d₀) := by
  refine ⟨?_, ?_, ?_⟩
  · simp only [updKey, aggId, h]
    cases hc : v.data.any (fun c => decide (c = delim)) with
    | true =>
      simp only [hc, if_true]
      exact dictGet_dictSet_self d k _
    | false =>
      simp only [hc, Bool.false_eq_true, if_false]
      exact h
  · intro k' hk
    simp only [updKey, h]
    cases hc : v.data.any (fun c => decide (c = delim)) with
    | true =>
      simp only [hc, if_true]
      exact dictGet_dictSet_other d k _ k' hk
    | false =>
      simp only [hc, Bool.false_eq_true, if_false]
  · intro l out hout g d' hd'
    have hchar := reparse_go_lookup k delim l [] out hout g
    simp only [lookupGroup, Option.getD_none, List.nil_append] at hchar
    rw [hchar] at hd'
    exact rowFilter_mem k delim g l d' hd'

/-- C9 amended witness: the concrete mutated row. -/
theorem aggregator_mutates_key_only_witness :
    dictGet (updKey "oligo_name" ',' rowMut) "oligo_name" = .ok (aggId ',' "probe1,v2") :=
  (aggregator_mutates_key_only "oligo_name" ',' rowMut "probe1,v2" rfl).1

end ScoreTemp
